import Mathlib

/-!
Verification development for the sora-lite image-compression service.

The JavaScript sources (`server.js`, `utils/processor.js`) are shallowly
embedded below: pure string manipulation (Node's `path.basename`,
`path.extname`, `path.join` restricted to the shapes the server uses)
becomes Lean string functions, the stateful upload pipeline becomes an
explicit function from a pre-state of the two storage areas to an outcome
and a post-state, the `p-limit` concurrency gate becomes a small state
machine driven by an arbitrary completion trace, and the cron cleanup
sweep becomes a function over a directory listing.  Machine-level details
that the claims do not touch (actual pixel codecs, TLS, logging text) are
abstracted as parameters.
-/

set_option maxHeartbeats 1000000

/-! ## Configuration constants (server.js) -/

def MAX_FILES : Nat := 20

def MAX_TOTAL_SIZE : Nat := 100 * 1024 * 1024

def CLEANUP_AFTER_MS : Int := 5 * 60 * 1000

/-- Default of the `concurrency` option of `processFiles` (and the value the
`/upload` route passes). -/
def defaultConcurrency : Nat := 6

/-- Representative value of `__dirname` for the running server process. -/
def DIRNAME : String := "/srv/sora-lite"

def UPLOAD_DIR : String := DIRNAME ++ "/uploads"

def OPTIMIZED_DIR : String := DIRNAME ++ "/optimized"

/-! ## String primitives

All string manipulation is implemented by structural recursion over the
underlying character lists, so that every definition evaluates inside the
kernel (`decide`/`rfl` on concrete inputs). -/

/-- Split a character list on a separator character (like
`String.prototype.split` / `s.splitOn`). -/
def splitOnCharAux (sep : Char) : List Char → List Char → List (List Char)
  | [], acc => [acc.reverse]
  | c :: cs, acc =>
    if c = sep then acc.reverse :: splitOnCharAux sep cs []
    else splitOnCharAux sep cs (c :: acc)

def splitOnChar (sep : Char) (l : List Char) : List (List Char) :=
  splitOnCharAux sep l []

/-- Join segments with `'/'` separators. -/
def joinSlash : List (List Char) → List Char
  | [] => []
  | [x] => x
  | x :: xs => x ++ '/' :: joinSlash xs

/-- JavaScript `s.endsWith(suffix)` / Node suffix test. -/
def strEndsWith (s suffix : String) : Bool :=
  suffix.data.isSuffixOf s.data

/-- `s.dropRight n` implemented structurally. -/
def strDropRight (s : String) (n : Nat) : String :=
  String.mk (s.data.take (s.data.length - n))

/-- ASCII lower-casing of one character, the fragment of JavaScript
`toLowerCase` that file extensions exercise. -/
def lowerChar (c : Char) : Char :=
  if 65 ≤ c.toNat ∧ c.toNat ≤ 90 then Char.ofNat (c.toNat + 32) else c

/-- JavaScript `s.toLowerCase()` on ASCII strings. -/
def lowerStr (s : String) : String :=
  String.mk (s.data.map lowerChar)

/-! ## Node path primitives, restricted to the shapes the server uses -/

/-- Node `path.basename(s)` (posix): the last nonempty `/`-separated segment
of `s`, or `""` when there is none (`""`, `"/"`, `"//"`). -/
def nodeBasename (s : String) : String :=
  String.mk ((((splitOnChar '/' s.data).filter (fun t => t != [])).getLast?).getD [])

/-- Normalised parent directory of an absolute, normalised directory path,
i.e. Node `path.join(d, "..")`. -/
def parentDir (d : String) : String :=
  String.mk ('/' :: joinSlash (((splitOnChar '/' d.data).filter (fun t => t != [])).dropLast))

/-- JavaScript `s.startsWith(pre)`: `pre` is a prefix of `s`. -/
def strStartsWith (s pre : String) : Bool :=
  pre.data.isPrefixOf s.data

/-- Node `path.join(dir, seg)` where `seg` contains no `/` (which is all the
server ever joins: it always joins a directory with a `path.basename`
result).  Node normalises the concatenation, which for a separator-free
segment only matters for `""`, `"."` and `".."`. -/
def joinOne (dir seg : String) : String :=
  if seg = "" ∨ seg = "." then dir
  else if seg = ".." then parentDir dir
  else dir ++ "/" ++ seg

/-- Index of the last `'.'` in a character list, if any. -/
def lastDotIndexAux : List Char → Nat → Option Nat → Option Nat
  | [], _, acc => acc
  | c :: cs, i, acc => lastDotIndexAux cs (i + 1) (if c = '.' then some i else acc)

def lastDotIndex (l : List Char) : Option Nat :=
  lastDotIndexAux l 0 none

/-- Node `path.extname(s)` (posix) on the names the server handles: the
suffix of the basename starting at its last dot; `""` when the basename has
no dot, when the dot is its first character (dotfiles like `".png"`), or
for `".."`. -/
def extname (s : String) : String :=
  let b := nodeBasename s
  if b = ".." then ""
  else
    match lastDotIndex b.data with
    | none => ""
    | some 0 => ""
    | some i => String.mk (b.data.drop i)

/-- Node `path.basename(s, suffix)`: the basename, with `suffix` stripped
when the basename ends with it and is not equal to it. -/
def basenameSuffix (s suffix : String) : String :=
  let b := nodeBasename s
  if suffix ≠ "" ∧ strEndsWith b suffix = true ∧ b ≠ suffix then
    strDropRight b suffix.data.length
  else b

/-- JavaScript `s.replace(/\s+/g, '_')`: every maximal run of whitespace
becomes a single underscore.  The Bool argument records whether the
previous character was whitespace. -/
def collapseWsAux : Bool → List Char → List Char
  | _, [] => []
  | prevWs, c :: cs =>
    if c.isWhitespace then
      if prevWs then collapseWsAux true cs
      else '_' :: collapseWsAux true cs
    else c :: collapseWsAux false cs

def collapseWs (s : String) : String :=
  String.mk (collapseWsAux false s.data)

/-! ## Route handlers `GET /download/:filename` and `GET /upload/:filename` -/

/-- Outcome of a file-serving route: the 400 `Invalid file request` branch,
serving the file at `p` under download name `dn`, or the 404 `File not
found` branch. -/
inductive FileResponse where
  | invalidRequest
  | serve (p : String) (dn : String)
  | notFound
deriving DecidableEq, Repr

/-- Model of `fs.access`: the probed path exists when it is the directory
itself or one of the directory's entries (`contents` lists the file names
currently stored in `dir`). -/
def accessOk (contents : List String) (dir p : String) : Bool :=
  (p == dir) || contents.any (fun n => p == dir ++ "/" ++ n)

/-- Shared body of the two serving routes in server.js:
`safeName = path.basename(req.params.filename)`,
`filePath = path.join(dir, safeName)`, reject with 400 unless
`filePath.startsWith(dir)`, then serve if `fs.access` succeeds, else 404. -/
def fileRouteHandler (dir : String) (contents : List String) (filename : String) :
    FileResponse :=
  if strStartsWith (joinOne dir (nodeBasename filename)) dir = false then .invalidRequest
  else if accessOk contents dir (joinOne dir (nodeBasename filename)) = true then
    .serve (joinOne dir (nodeBasename filename)) (nodeBasename filename)
  else .notFound

/-- `GET /download/:filename` serves out of the optimized (outgoing) area. -/
def downloadHandler (contents : List String) (filename : String) : FileResponse :=
  fileRouteHandler OPTIMIZED_DIR contents filename

/-- `GET /upload/:filename` serves out of the uploads (incoming) area. -/
def uploadGetHandler (contents : List String) (filename : String) : FileResponse :=
  fileRouteHandler UPLOAD_DIR contents filename

/-! ## Intake (multer) -/

/-- One part of the incoming multipart batch: the client-supplied name and
its byte size. -/
structure MFile where
  originalname : String
  size : Nat
deriving DecidableEq, Repr

/-- Multer `fileFilter` test `/\.(jpe?g|png)$/i` on the original name. -/
def allowedName (s : String) : Bool :=
  let l := lowerStr s
  strEndsWith l ".jpg" || strEndsWith l ".jpeg" || strEndsWith l ".png"

/-- Stored (collision-resistant) filename assigned by the multer
`diskStorage` callback: sanitised basename, `-`, a unique suffix
(`Date.now() + '-' + random` in the source, an opaque string here), then
the original extension. -/
def storedName (originalname uniq : String) : String :=
  let ext := extname originalname
  collapseWs (basenameSuffix originalname ext) ++ "-" ++ uniq ++ ext

/-- A file staged in the incoming area: multer's `file` object restricted
to the fields the pipeline reads (`originalname`, `size`, `filename`). -/
structure StoredFile where
  originalname : String
  size : Nat
  filename : String
deriving DecidableEq, Repr, Inhabited

def storedOf (f : MFile) (uniq : String) : StoredFile :=
  { originalname := f.originalname, size := f.size,
    filename := storedName f.originalname uniq }

/-- The three ways multer aborts the batch: busboy's file-count limit, the
`fileFilter` extension rejection, and the per-file `fileSize` limit. -/
inductive IntakeError where
  | countLimit
  | typeRejected
  | sizeLimit
deriving DecidableEq, Repr

/-- Sequential intake of the multipart parts, configured in server.js:
part `i` triggers the count limit when `i ≥ MAX_FILES`, is rejected by
`fileFilter` when its extension is not an accepted raster extension,
triggers the per-file size limit when larger than `MAX_TOTAL_SIZE`, and is
otherwise staged to disk.  The abort behaviour is modelled from the spec
("rejects the whole batch on violation", "zero files staged afterward"):
multer — a dependency whose source is not in this repository — removes
every file it had already staged when it aborts, so an error leaves
nothing of the batch behind. -/
def intakeAux (uniq : Nat → String) : Nat → List MFile → Except IntakeError (List StoredFile)
  | _, [] => .ok []
  | i, f :: fs =>
    if MAX_FILES ≤ i then .error .countLimit
    else if allowedName f.originalname = false then .error .typeRejected
    else if MAX_TOTAL_SIZE < f.size then .error .sizeLimit
    else
      match intakeAux uniq (i + 1) fs with
      | .ok rest => .ok (storedOf f (uniq i) :: rest)
      | .error e => .error e

def runIntake (files : List MFile) (uniq : Nat → String) :
    Except IntakeError (List StoredFile) :=
  intakeAux uniq 0 files

/-- Stored names of the files multer writes to the incoming area while the
request streams: each accepted part is durably staged before the next part
(and before the route callback) is examined, so the staged prefix reaches
disk even when a later part or the aggregate-size check rejects the
batch. -/
def intakeStagedEver (uniq : Nat → String) : Nat → List MFile → List String
  | _, [] => []
  | i, f :: fs =>
    if MAX_FILES ≤ i ∨ allowedName f.originalname = false ∨ MAX_TOTAL_SIZE < f.size then []
    else storedName f.originalname (uniq i) :: intakeStagedEver uniq (i + 1) fs

/-! ## Batch optimiser (utils/processor.js `optimiseFile`) -/

/-- Metadata object returned by `optimiseFile` in utils/processor.js. -/
structure OptResult where
  filename : String
  originalName : String
  optimizedPath : String
  sizeBefore : Nat
  sizeAfter : Nat
deriving DecidableEq, Repr

/-- Derived output name exactly as utils/processor.js computes it:
`ext = path.extname(file.originalname).toLowerCase()` and then
`path.basename(file.originalname, ext) + '-opt' + ext`. -/
def optName (originalname : String) : String :=
  let ext := lowerStr (extname originalname)
  basenameSuffix originalname ext ++ "-opt" ++ ext

/-- Derived output name as the specification words it: the original base
name with its extension removed, then `-opt`, then the original (not
re-cased) extension. -/
def specOptName (originalname : String) : String :=
  let ext := extname originalname
  basenameSuffix originalname ext ++ "-opt" ++ ext

/-- `optimiseFile(file, outDir)`: lower-case the extension, pick the
pngquant or mozjpeg plugin (throwing `Unsupported file type` otherwise),
run the codec on the file bytes, and write the optimized buffer to
`outDir` under the derived name.  The pixel codec is abstracted as
`codec : StoredFile → Option Nat`, giving the optimized byte length or
`none` when the compressor rejects the input; `none` is also the model of
the thrown errors. -/
def optimiseFile (codec : StoredFile → Option Nat) (outDir : String)
    (f : StoredFile) : Option OptResult :=
  let ext := lowerStr (extname f.originalname)
  if ext = ".png" ∨ ext = ".jpg" ∨ ext = ".jpeg" then
    match codec f with
    | some sizeAfter =>
      some { filename := f.filename, originalName := f.originalname,
             optimizedPath := outDir ++ "/" ++ optName f.originalname,
             sizeBefore := f.size, sizeAfter := sizeAfter }
    | none => none
  else none

/-! ## The p-limit concurrency gate and `processFiles` -/

/-- State of the `p-limit` gate over jobs named by their submission index:
the running set, the FIFO wait queue, the admission log (order in which
jobs began executing) and the completion log. -/
structure Sched where
  active : List Nat
  queue : List Nat
  started : List Nat
  done : List Nat
deriving DecidableEq, Repr

/-- Modelled from the spec: the admission step of the `p-limit`
concurrency gate, whose source is a dependency and not part of this
repository — "at most N units may run concurrently; remaining units queue
in submission order".  `limit(fn)`: run the job immediately while fewer
than `limit` jobs are active, otherwise append it to the wait queue. -/
def enqueueJob (limit : Nat) (st : Sched) (j : Nat) : Sched :=
  if st.active.length < limit then
    { st with active := st.active ++ [j], started := st.started ++ [j] }
  else
    { st with queue := st.queue ++ [j] }

/-- Modelled from the spec: the release step of the `p-limit` gate —
"admitting a new unit only when a running one completes (success or
failure) — starvation-free FIFO admission".  Completion of running job `j`
(success or failure alike): `j` leaves the active set and, when the wait
queue is nonempty, its head — and only its head — is admitted.  Completing
a job that is not running changes nothing. -/
def completeJob (st : Sched) (j : Nat) : Sched :=
  if j ∈ st.active then
    let base : Sched :=
      { st with active := st.active.erase j, done := st.done ++ [j] }
    match st.queue with
    | [] => base
    | q :: qs =>
      { base with active := base.active ++ [q], queue := qs,
                  started := base.started ++ [q] }
  else st

/-- `processFiles` submits one job per file, in batch order, before any
completion is observed. -/
def initSched (limit n : Nat) : Sched :=
  (List.range n).foldl (enqueueJob limit) ⟨[], [], [], []⟩

/-- The gate after all `n` submissions and then the completions listed in
`tr`, in that order (`tr` is an arbitrary completion schedule). -/
def runTrace (limit n : Nat) (tr : List Nat) : Sched :=
  tr.foldl completeJob (initSched limit n)

/-- Modelled from the spec: `Promise.all` result assembly (a JavaScript
runtime primitive, not repository code) — "the aggregate result is the
per-file result list in the same order the batch was submitted".  Each
completed job stores its value in the result slot of its own index, never
by completion position. -/
def gather {α : Type} (n : Nat) (log : List Nat) (f : Nat → α) : List (Option α) :=
  log.foldl (fun acc j => acc.set j (some (f j))) (List.replicate n none)

/-- `processFiles(files, { outDir, concurrency })` under completion
schedule `tr`: job `i` optimises `files[i]`, and the aggregate result is
the `Promise.all` assembly of the completion log.  Slot `i` is `none`
while job `i` has not completed. -/
def processFiles (codec : StoredFile → Option Nat) (outDir : String)
    (files : List StoredFile) (concurrency : Nat) (tr : List Nat) :
    List (Option (Option OptResult)) :=
  gather files.length (runTrace concurrency files.length tr).done
    (fun i => optimiseFile codec outDir (files.getD i default))

/-! ## The POST /upload route -/

/-- One element of the response `files` payload. -/
structure RespEntry where
  originalName : String
  optimizedName : String
  downloadUrl : String
  uploadUrl : String
  sizeBefore : Nat
  sizeAfter : Nat
deriving DecidableEq, Repr

def toEntry (p : OptResult) : RespEntry :=
  { originalName := p.originalName,
    optimizedName := nodeBasename p.optimizedPath,
    downloadUrl := "/download/" ++ nodeBasename p.optimizedPath,
    uploadUrl := "/upload/" ++ nodeBasename p.filename,
    sizeBefore := p.sizeBefore, sizeAfter := p.sizeAfter }

/-- Contents of the two storage areas, as lists of file names. -/
structure AreaState where
  incoming : List String
  outgoing : List String
deriving DecidableEq, Repr

/-- Outcome of `POST /upload`: the 400 multer-error branch, the 400
aggregate-size branch, the 500 `Failed to process images` branch, or the
JSON success payload. -/
inductive UploadOutcome where
  | uploadError (e : IntakeError)
  | totalSizeExceeded
  | processingFailed
  | responded (files : List RespEntry) (zip : Option String)
deriving DecidableEq, Repr

/-- Optimized names written to the outgoing area by a batch: every job
whose codec step succeeds writes its output, whether or not a sibling job
fails (`Promise.all` rejection does not cancel the jobs already running). -/
def writtenOutputs (codec : StoredFile → Option Nat) (staged : List StoredFile) :
    List String :=
  staged.filterMap (fun f => (optimiseFile codec OPTIMIZED_DIR f).map
    (fun r => nodeBasename r.optimizedPath))

/-- The `POST /upload` route body.  `pre` is the state of the two areas
before the request, `uniq` supplies the unique stored-name suffixes,
`codec` the pixel codecs, `zipHex` the random archive identifier.  Multer
errors return 400 with the batch unstaged by multer itself; an aggregate
size above `MAX_TOTAL_SIZE` unlinks every staged file and returns 400; a
processing failure unlinks every staged original and returns 500, leaving
the outputs already written by succeeding siblings in the outgoing area;
success responds with the per-file payload (plus a zip when more than one
file was processed) and leaves the staged originals for the cleanup job. -/
def uploadPost (pre : AreaState) (files : List MFile) (uniq : Nat → String)
    (codec : StoredFile → Option Nat) (zipHex : String) :
    UploadOutcome × AreaState :=
  match runIntake files uniq with
  | .error e => (.uploadError e, pre)
  | .ok staged =>
    if MAX_TOTAL_SIZE < (staged.map (fun f => f.size)).sum then
      (.totalSizeExceeded, pre)
    else
      let results := staged.map (optimiseFile codec OPTIMIZED_DIR)
      if results.all (fun r => r.isSome) then
        let processed := results.filterMap id
        let zipInfo : Option String :=
          if 1 < processed.length then some ("bundle-" ++ zipHex ++ ".zip") else none
        let zipFiles : List String :=
          match zipInfo with
          | some z => [z]
          | none => []
        (.responded (processed.map toEntry) zipInfo,
         { incoming := pre.incoming ++ staged.map (fun f => f.filename),
           outgoing := pre.outgoing ++ writtenOutputs codec staged ++ zipFiles })
      else
        (.processingFailed,
         { incoming := pre.incoming,
           outgoing := pre.outgoing ++ writtenOutputs codec staged })

/-- Batch-level validity violations named by the claim: too many files, a
file of a non-accepted type, or an aggregate size above the maximum. -/
def batchViolation (files : List MFile) : Prop :=
  MAX_FILES < files.length
  ∨ (∃ f ∈ files, allowedName f.originalname = false)
  ∨ MAX_TOTAL_SIZE < (files.map (fun f => f.size)).sum

/-! ## createZip (utils/processor.js) -/

inductive ZipOutcome where
  | failed
  | resolved (zipName : String)
deriving DecidableEq, Repr

/-- `createZip(filePaths)`: pick the random container name, then
`await fs.open(zipPath, 'w')` — which creates the container at its final
resolvable location in the optimized folder before a single input has been
read — then stream the inputs and finalize.  The second component lists
the names this call leaves present in the optimized folder: the container
name is there on every path, including the failure path, because nothing
removes the eagerly opened file. -/
def createZip (readable : String → Bool) (filePaths : List String)
    (randHex : String) : ZipOutcome × List String :=
  let zipName := "bundle-" ++ randHex ++ ".zip"
  let created := [zipName]
  if filePaths.all readable = true then (.resolved zipName, created)
  else (.failed, created)

/-! ## The cleanup cron job (server.js) -/

/-- A directory entry as the sweep sees it: name, last-modified time in
milliseconds, and whether it is a regular file. -/
structure FsEntry where
  name : String
  mtimeMs : Int
  isFile : Bool
deriving DecidableEq, Repr

/-- One `cleanFolder` run over the readdir listing (first argument)
against the evolving folder state (second argument).  Non-files are
skipped; each file entry is `fs.stat`-ed by name against the current
state — a missing name makes `stat` throw, which the surrounding `catch`
turns into a logged cleanup error that aborts the rest of this folder's
sweep (third component `true`); a stale file (age strictly above
`CLEANUP_AFTER_MS`) is unlinked.  Returns the final folder state, the
deleted names in deletion order, and the error flag. -/
def sweepGo (now : Int) : List FsEntry → List FsEntry → List FsEntry × List String × Bool
  | [], st => (st, [], false)
  | e :: rest, st =>
    if e.isFile = false then sweepGo now rest st
    else
      match st.find? (fun x => x.name == e.name) with
      | none => (st, [], true)
      | some x =>
        if CLEANUP_AFTER_MS < now - x.mtimeMs then
          let out := sweepGo now rest (st.eraseP (fun y => y.name == e.name))
          (out.1, e.name :: out.2.1, out.2.2)
        else sweepGo now rest st

/-- `cleanFolder(folder)` at time `now`: sweep the folder's own listing. -/
def cleanFolder (now : Int) (folder : List FsEntry) :
    List FsEntry × List String × Bool :=
  sweepGo now folder folder

/-- One tick of the cron job: both areas swept independently. -/
def cronSweep (now : Int) (uploads optimized : List FsEntry) :
    (List FsEntry × List String × Bool) × (List FsEntry × List String × Bool) :=
  (cleanFolder now uploads, cleanFolder now optimized)

/-! ## Invariant of the p-limit gate -/

/-- Invariant of the gate state once the first `m` jobs have been
submitted: the active count respects the limit, whenever jobs wait the
gate is saturated, the admission log is exactly the first
`started.length` submission indices in order, and the wait queue is the
remaining submitted suffix. -/
def SchedInv (m limit : Nat) (st : Sched) : Prop :=
  st.active.length ≤ limit
  ∧ (st.queue ≠ [] → st.active.length = limit)
  ∧ st.started = List.range st.started.length
  ∧ st.started.length ≤ m
  ∧ st.queue = (List.range m).drop st.started.length

/-! ## Concrete fixtures used by the closed witness theorems -/

def exUniq : Nat → String := fun i => toString i

def constCodec : StoredFile → Option Nat := fun _ => some 1

def failCodec : StoredFile → Option Nat :=
  fun f => if f.originalname == "a.png" then none else some 3

def noneReadable : String → Bool := fun _ => false

/-- Two files of 60 MiB each: every per-file check passes, the aggregate
(120 MiB) violates the 100 MiB cap. -/
def cBatch : List MFile := [⟨"a.png", 62914560⟩, ⟨"b.png", 62914560⟩]

def badBatch : List MFile := [⟨"a.gif", 5⟩]

def smallBatch : List MFile := [⟨"a.png", 5⟩, ⟨"b.jpg", 6⟩]

def smallStaged : List StoredFile :=
  [⟨"a.png", 5, "a-0.png"⟩, ⟨"b.jpg", 6, "b-1.jpg"⟩]

def demoFiles : List StoredFile :=
  [⟨"a.png", 5, "a-0.png"⟩, ⟨"b.jpg", 6, "b-1.jpg"⟩, ⟨"c.png", 7, "c-2.png"⟩]

def preDemo : AreaState := ⟨["keep"], ["old"]⟩

def upDemo : List FsEntry :=
  [⟨"old.png", 0, true⟩, ⟨"new.png", 290000, true⟩, ⟨"sub", -5, false⟩]

def optDemo : List FsEntry := [⟨"b-opt.png", 100, true⟩]
deriving instance DecidableEq for Except

/-! ## Helper lemmas about string prefixes -/

theorem isPrefixOf_append_self (l t : List Char) : l.isPrefixOf (l ++ t) = true := by
  induction l with
  | nil => simp
  | cons c cs ih => rw [List.cons_append, List.isPrefixOf_cons₂_self]; exact ih

theorem strStartsWith_append (dir rest : String) : strStartsWith (dir ++ rest) dir = true := by
  show dir.data.isPrefixOf (dir ++ rest).data = true
  rw [String.data_append]
  exact isPrefixOf_append_self dir.data rest.data

theorem strStartsWith_self (s : String) : strStartsWith s s = true := by
  have h := isPrefixOf_append_self s.data []
  rw [List.append_nil] at h
  exact h

/-! ## Claim C1: path confinement of the two serving routes -/

/-- Claim C1, counterexample to the claim as stated: the request name
`".."` (its own `path.basename` is `".."`, so `path.join` resolves to the
parent directory and the `startsWith` guard fails) is answered by the
distinct 400 `Invalid file request` branch, not by the not-found outcome —
the handler does emit a distinct traversal signal for this input, on both
routes. -/
theorem C1_counterexample :
    downloadHandler [] ".." = FileResponse.invalidRequest
  ∧ uploadGetHandler [] "a/.." = FileResponse.invalidRequest
  ∧ FileResponse.invalidRequest ≠ FileResponse.notFound := by
  decide

/-- Claim C1, amended: for either serving route, (1) every served path is
confined to the designated directory (string-prefix of it), (2) the
distinct 400 traversal signal occurs exactly when the final path segment of
the requested name is `".."`, and (3) for every other requested name the
handler serves the in-directory resolution or answers not-found — in
particular a name such as `../../etc/passwd` resolves inside the directory
and is not-found when no file of that base name is stored. -/
theorem C1_amended (dir : String) (hdir : dir = OPTIMIZED_DIR ∨ dir = UPLOAD_DIR)
    (contents : List String) (filename : String) :
    (∀ p dn, fileRouteHandler dir contents filename = .serve p dn →
        strStartsWith p dir = true)
  ∧ (fileRouteHandler dir contents filename = .invalidRequest
      ↔ nodeBasename filename = "..")
  ∧ (nodeBasename filename ≠ ".." →
        fileRouteHandler dir contents filename
            = .serve (joinOne dir (nodeBasename filename)) (nodeBasename filename)
        ∨ fileRouteHandler dir contents filename = .notFound) := by
  have hguard : nodeBasename filename ≠ ".." →
      strStartsWith (joinOne dir (nodeBasename filename)) dir = true := by
    intro h2
    by_cases h0 : nodeBasename filename = "" ∨ nodeBasename filename = "."
    · rw [joinOne, if_pos h0]
      exact strStartsWith_self dir
    · rw [joinOne, if_neg h0, if_neg h2, String.append_assoc]
      exact strStartsWith_append dir ("/" ++ nodeBasename filename)
  have hbad : strStartsWith (joinOne dir "..") dir = false := by
    rcases hdir with rfl | rfl <;> decide
  refine ⟨?_, ⟨?_, ?_⟩, ?_⟩
  · intro p dn h
    unfold fileRouteHandler at h
    split at h
    · exact absurd h (by simp)
    · next hg =>
      split at h
      · cases h
        cases hval : strStartsWith (joinOne dir (nodeBasename filename)) dir
        · exact absurd hval hg
        · rfl
      · exact absurd h (by simp)
  · intro h
    by_contra h2
    unfold fileRouteHandler at h
    rw [if_neg (by simp [hguard h2])] at h
    split at h
    · exact absurd h (by simp)
    · exact absurd h (by simp)
  · intro h2
    unfold fileRouteHandler
    rw [h2, if_pos hbad]
  · intro h2
    unfold fileRouteHandler
    rw [if_neg (by simp [hguard h2])]
    by_cases ha : accessOk contents dir (joinOne dir (nodeBasename filename)) = true
    · left; rw [if_pos ha]
    · right; rw [if_neg ha]

/-- Claim C1, witness: the canonical traversal probe of the specification,
`../../etc/passwd`, resolves inside the outgoing directory: it is either
served from there or answered not-found. -/
theorem C1_witness :
    fileRouteHandler OPTIMIZED_DIR ["passwd"] "../../etc/passwd"
        = FileResponse.serve
            (joinOne OPTIMIZED_DIR (nodeBasename "../../etc/passwd"))
            (nodeBasename "../../etc/passwd")
  ∨ fileRouteHandler OPTIMIZED_DIR ["passwd"] "../../etc/passwd"
        = FileResponse.notFound :=
  (C1_amended OPTIMIZED_DIR (Or.inl rfl) ["passwd"] "../../etc/passwd").2.2 (by decide)

/-! ## Claim C2: the p-limit gate -/

theorem schedInv_enqueue {m limit : Nat} {st : Sched} (h : SchedInv m limit st) :
    SchedInv (m + 1) limit (enqueueJob limit st m) := by
  obtain ⟨hA, hB, hC, hle, hQ⟩ := h
  unfold enqueueJob
  split
  · next hlt =>
    have hq0 : st.queue = [] := by
      by_contra hne
      rw [hB hne] at hlt
      exact absurd hlt (lt_irrefl limit)
    have hs : st.started.length = m := by
      rw [hq0] at hQ
      have hls : (List.range m).length ≤ st.started.length :=
        List.drop_eq_nil_iff.mp hQ.symm
      rw [List.length_range] at hls
      omega
    refine ⟨?_, ?_, ?_, ?_, ?_⟩
    · simp only [List.length_append, List.length_cons, List.length_nil]
      omega
    · intro hne
      exact absurd hq0 hne
    · have hC' : st.started = List.range m := by rw [hs] at hC; exact hC
      simp only [List.length_append, List.length_cons, List.length_nil, hs]
      rw [show m + (0 + 1) = m + 1 by omega, List.range_succ, hC']
    · simp only [List.length_append, List.length_cons, List.length_nil]
      omega
    · simp only [List.length_append, List.length_cons, List.length_nil, hs]
      rw [List.drop_eq_nil_of_le (by rw [List.length_range])]
      exact hq0
  · next hge =>
    have hlim : st.active.length = limit := Nat.le_antisymm hA (Nat.not_lt.mp hge)
    refine ⟨hA, fun _ => hlim, hC, Nat.le_succ_of_le hle, ?_⟩
    rw [hQ, List.range_succ, List.drop_append_eq_append_drop, List.length_range,
      Nat.sub_eq_zero_of_le hle, List.drop_zero]

theorem schedInv_init (limit n : Nat) : SchedInv n limit (initSched limit n) := by
  suffices h : ∀ m, SchedInv m limit ((List.range m).foldl (enqueueJob limit) ⟨[], [], [], []⟩) by
    exact h n
  intro m
  induction m with
  | zero =>
    refine ⟨by simp, by simp, by simp, by simp, by simp⟩
  | succ k ih =>
    rw [List.range_succ, List.foldl_append, List.foldl_cons, List.foldl_nil]
    exact schedInv_enqueue ih

theorem schedInv_complete {n limit : Nat} {st : Sched} (j : Nat)
    (h : SchedInv n limit st) : SchedInv n limit (completeJob st j) := by
  obtain ⟨hA, hB, hC, hle, hQ⟩ := h
  unfold completeJob
  split
  · next hj =>
    cases hq : st.queue with
    | nil =>
      simp only [hq]
      refine ⟨Nat.le_trans (List.length_erase_le j st.active) hA, ?_, hC, hle, ?_⟩
      · intro hne
        exact absurd rfl hne
      · rw [← hq, hQ]
    | cons q qs =>
      simp only [hq]
      have hlim : st.active.length = limit := hB (by rw [hq]; simp)
      have hsn : st.started.length < n := by
        by_contra hge
        have : (List.range n).drop st.started.length = [] :=
          List.drop_eq_nil_of_le (by rw [List.length_range]; omega)
        rw [this] at hQ
        rw [hQ] at hq
        exact absurd hq (by simp)
      have hdrop : (List.range n).drop st.started.length
          = st.started.length :: (List.range n).drop (st.started.length + 1) := by
        rw [List.drop_eq_getElem_cons (by rw [List.length_range]; exact hsn)]
        rw [List.getElem_range]
      rw [hQ, hdrop] at hq
      have hqv : q = st.started.length := (List.cons.injEq _ _ _ _ ▸ hq).1.symm
      have hqs : qs = (List.range n).drop (st.started.length + 1) :=
        ((List.cons.injEq _ _ _ _ ▸ hq).2).symm
      have herase : (st.active.erase j).length = limit - 1 := by
        rw [List.length_erase_of_mem hj, hlim]
      have hpos : 0 < limit := by
        have : 0 < st.active.length := List.length_pos_of_mem hj
        omega
      refine ⟨?_, ?_, ?_, ?_, ?_⟩
      · simp only [List.length_append, List.length_cons, List.length_nil, herase]
        omega
      · intro _
        simp only [List.length_append, List.length_cons, List.length_nil, herase]
        omega
      · simp only [List.length_append, List.length_cons, List.length_nil]
        rw [hqv]
        rw [show st.started.length + (0 + 1) = st.started.length + 1 by omega]
        rw [List.range_succ, ← hC]
      · simp only [List.length_append, List.length_cons, List.length_nil]
        omega
      · simp only [List.length_append, List.length_cons, List.length_nil]
        rw [hqs]
  · exact ⟨hA, hB, hC, hle, hQ⟩

theorem schedInv_runTrace (limit n : Nat) (tr : List Nat) :
    SchedInv n limit (runTrace limit n tr) := by
  unfold runTrace
  suffices h : ∀ st, SchedInv n limit st → SchedInv n limit (tr.foldl completeJob st) by
    exact h _ (schedInv_init limit n)
  induction tr with
  | nil => intro st h; exact h
  | cons j js ih =>
    intro st h
    rw [List.foldl_cons]
    exact ih _ (schedInv_complete j h)

/-- Claim C2: along every completion schedule, (1) never more than
`limit` jobs are active, (2) the jobs admitted so far are exactly an
initial segment of the submission order (FIFO admission in submission
order), and (3) each completion of a running job admits exactly one queued
job when any is waiting, and none otherwise. -/
theorem C2_concurrency_bound (limit n : Nat) (tr : List Nat) :
    (runTrace limit n tr).active.length ≤ limit
  ∧ (runTrace limit n tr).started
      = List.range (runTrace limit n tr).started.length
  ∧ (∀ j, j ∈ (runTrace limit n tr).active →
      (completeJob (runTrace limit n tr) j).started.length
        = (runTrace limit n tr).started.length
          + (if (runTrace limit n tr).queue = [] then 0 else 1)) := by
  obtain ⟨hA, hB, hC, hle, hQ⟩ := schedInv_runTrace limit n tr
  refine ⟨hA, hC, ?_⟩
  intro j hj
  unfold completeJob
  rw [if_pos hj]
  cases hq : (runTrace limit n tr).queue with
  | nil => simp [hq]
  | cons q qs => simp [hq]

/-- Claim C2, witness: a batch of 12 jobs under the default limit of 6,
after an arbitrary out-of-order completion schedule. -/
theorem C2_witness :
    (runTrace defaultConcurrency 12 [0, 5, 3]).active.length ≤ defaultConcurrency
  ∧ (runTrace defaultConcurrency 12 [0, 5, 3]).started
      = List.range (runTrace defaultConcurrency 12 [0, 5, 3]).started.length
  ∧ (completeJob (runTrace defaultConcurrency 12 [0, 5, 3]) 1).started.length
      = (runTrace defaultConcurrency 12 [0, 5, 3]).started.length
        + (if (runTrace defaultConcurrency 12 [0, 5, 3]).queue = [] then 0 else 1) :=
  ⟨(C2_concurrency_bound defaultConcurrency 12 [0, 5, 3]).1,
   (C2_concurrency_bound defaultConcurrency 12 [0, 5, 3]).2.1,
   (C2_concurrency_bound defaultConcurrency 12 [0, 5, 3]).2.2 1 (by decide)⟩

/-! ## Claim C6: result assembly of processFiles -/

theorem foldSet_length {α : Type} (f : Nat → α) (log : List Nat)
    (init : List (Option α)) :
    (log.foldl (fun acc j => acc.set j (some (f j))) init).length = init.length := by
  induction log generalizing init with
  | nil => rfl
  | cons j js ih =>
    rw [List.foldl_cons, ih]
    exact List.length_set init j _

theorem foldSet_getD {α : Type} (f : Nat → α) (log : List Nat)
    (init : List (Option α)) (i : Nat) (hi : i < init.length) :
    (log.foldl (fun acc j => acc.set j (some (f j))) init).getD i none
      = if i ∈ log then some (f i) else init.getD i none := by
  induction log generalizing init with
  | nil => simp
  | cons j js ih =>
    rw [List.foldl_cons]
    rw [ih (init.set j (some (f j))) (by rw [List.length_set]; exact hi)]
    by_cases hij : i = j
    · subst hij
      by_cases hm : i ∈ js
      · simp [hm]
      · simp only [hm, if_false, List.mem_cons, true_or, if_true]
        rw [List.getD_eq_getElem?_getD, List.getElem?_set_self hi]
        rfl
    · by_cases hm : i ∈ js
      · rw [if_pos hm, if_pos (by simp [List.mem_cons, hm])]
      · rw [if_neg hm, if_neg (by simp [List.mem_cons, hij, hm]),
          List.getD_eq_getElem?_getD, List.getD_eq_getElem?_getD,
          List.getElem?_set_ne (fun h => hij h.symm)]

theorem gather_eq {α : Type} (n : Nat) (log : List Nat) (f : Nat → α)
    (h : ∀ i, i < n → i ∈ log) :
    gather n log f = (List.range n).map (fun i => some (f i)) := by
  apply List.ext_getElem
  · rw [List.length_map, List.length_range]
    unfold gather
    rw [foldSet_length, List.length_replicate]
  · intro i h1 h2
    have hlen : i < n := by
      rw [List.length_map, List.length_range] at h2
      exact h2
    have hg := foldSet_getD f log (List.replicate n none) i (by rw [List.length_replicate]; exact hlen)
    rw [if_pos (h i hlen)] at hg
    have hleft : (gather n log f)[i]? = some (some (f i)) := by
      have := List.getElem?_eq_getElem h1
      rw [List.getD_eq_getElem?_getD] at hg
      unfold gather at this ⊢
      rw [this] at hg ⊢
      simp only [Option.getD_some] at hg
      rw [hg]
    have hright : ((List.range n).map (fun i => some (f i)))[i] = some (f i) := by
      rw [List.getElem_map, List.getElem_range]
    rw [hright]
    have := List.getElem?_eq_getElem h1
    rw [this] at hleft
    exact Option.some.inj hleft

theorem map_getD_range {α β : Type} [Inhabited α] (l : List α) (g : α → β) :
    (List.range l.length).map (fun i => g (l.getD i default)) = l.map g := by
  apply List.ext_getElem
  · rw [List.length_map, List.length_range, List.length_map]
  · intro i h1 h2
    have hi : i < l.length := by
      rw [List.length_map] at h2
      exact h2
    rw [List.getElem_map, List.getElem_map, List.getElem_range]
    simp [List.getD_eq_getElem?_getD, List.getElem?_eq_getElem hi]

/-- Claim C6: whenever a completion schedule has completed every job of
the batch, the `Promise.all` assembly of `processFiles` holds exactly one
result per submitted file, in submission order — independent of the order
in which the concurrent units completed. -/
theorem C6_result_order (codec : StoredFile → Option Nat) (outDir : String)
    (files : List StoredFile) (concurrency : Nat) (tr : List Nat)
    (hall : ∀ i, i < files.length →
        i ∈ (runTrace concurrency files.length tr).done) :
    processFiles codec outDir files concurrency tr
        = files.map (fun f => some (optimiseFile codec outDir f))
    ∧ (processFiles codec outDir files concurrency tr).length = files.length := by
  have h1 : processFiles codec outDir files concurrency tr
      = (List.range files.length).map
          (fun i => some (optimiseFile codec outDir (files.getD i default))) := by
    unfold processFiles
    exact gather_eq files.length _ _ hall
  constructor
  · rw [h1]
    exact map_getD_range files (fun f => some (optimiseFile codec outDir f))
  · rw [h1, List.length_map, List.length_range]

/-- Claim C6, witness: three files under concurrency 2, completed in the
out-of-submission order 1, 0, 2; the assembled results still follow the
submission order. -/
theorem C6_witness :
    processFiles constCodec OPTIMIZED_DIR demoFiles 2 [1, 0, 2]
        = demoFiles.map (fun f => some (optimiseFile constCodec OPTIMIZED_DIR f))
    ∧ (processFiles constCodec OPTIMIZED_DIR demoFiles 2 [1, 0, 2]).length
        = demoFiles.length :=
  C6_result_order constCodec OPTIMIZED_DIR demoFiles 2 [1, 0, 2] (by decide)

/-! ## Claims C3 and C4: batch validation and rejection -/

theorem intakeAux_ok (uniq : Nat → String) :
    ∀ (fs : List MFile) (i : Nat) (l : List StoredFile),
      intakeAux uniq i fs = Except.ok l →
      (∀ f ∈ fs, allowedName f.originalname = true ∧ f.size ≤ MAX_TOTAL_SIZE)
      ∧ (fs = [] ∨ i + fs.length ≤ MAX_FILES)
      ∧ l.map (fun s => s.size) = fs.map (fun f => f.size) := by
  intro fs
  induction fs with
  | nil =>
    intro i l h
    unfold intakeAux at h
    have hl : l = [] := by
      cases h
      rfl
    refine ⟨by simp, Or.inl rfl, by simp [hl]⟩
  | cons f fs ih =>
    intro i l h
    unfold intakeAux at h
    split at h
    · exact absurd h (by simp)
    · next hcnt =>
      split at h
      · exact absurd h (by simp)
      · next htype =>
        split at h
        · exact absurd h (by simp)
        · next hsize =>
          cases hrec : intakeAux uniq (i + 1) fs with
          | error e =>
            rw [hrec] at h
            exact absurd h (by simp)
          | ok rest =>
            rw [hrec] at h
            obtain ⟨hall, hlen, hsz⟩ := ih (i + 1) rest hrec
            have hl : l = storedOf f (uniq i) :: rest := by
              cases h
              rfl
            refine ⟨?_, ?_, ?_⟩
            · intro g hg
              rcases List.mem_cons.mp hg with rfl | hg'
              · constructor
                · cases hav : allowedName g.originalname
                  · exact absurd hav htype
                  · rfl
                · exact Nat.not_lt.mp hsize
              · exact hall g hg'
            · right
              rcases hlen with rfl | hle
              · simp only [List.length_cons, List.length_nil]
                omega
              · simp only [List.length_cons]
                omega
            · rw [hl]
              simp only [List.map_cons, storedOf]
              rw [hsz]
  
theorem uploadPost_reject (pre : AreaState) (files : List MFile) (uniq : Nat → String)
    (codec : StoredFile → Option Nat) (zipHex : String)
    (hv : batchViolation files) :
    ((∃ e, (uploadPost pre files uniq codec zipHex).1 = .uploadError e)
      ∨ (uploadPost pre files uniq codec zipHex).1 = .totalSizeExceeded)
    ∧ (uploadPost pre files uniq codec zipHex).2 = pre := by
  cases hr : runIntake files uniq with
  | error e =>
    constructor
    · exact Or.inl ⟨e, by simp [uploadPost, hr]⟩
    · simp [uploadPost, hr]
  | ok staged =>
    obtain ⟨hall, hcnt, hsz⟩ := intakeAux_ok uniq files 0 staged hr
    have hsum : MAX_TOTAL_SIZE < (staged.map (fun f => f.size)).sum := by
      rcases hv with hc | ⟨f, hf, hbad⟩ | hs
      · exfalso
        rcases hcnt with rfl | hle
        · simp only [List.length_nil] at hc
          exact absurd hc (by decide)
        · omega
      · exact absurd (hall f hf).1 (by rw [hbad]; decide)
      · rw [hsz]
        exact hs
    constructor
    · exact Or.inr (by simp [uploadPost, hr, hsum])
    · simp [uploadPost, hr, hsum]

/-- Claim C3, counterexample to the claim as stated: a two-file batch of
60 MiB each violates the aggregate-size check (120 MiB > 100 MiB), yet
both of its files are written to the incoming area during intake — the
aggregate check runs only after multer has staged the files on disk, so
the claim that no file of a violating batch is ever written does not hold
(the rejection then deletes them again). -/
theorem C3_counterexample :
    batchViolation cBatch
  ∧ intakeStagedEver exUniq 0 cBatch = ["a-0.png", "b-1.png"]
  ∧ intakeStagedEver exUniq 0 cBatch ≠ []
  ∧ (uploadPost ⟨[], []⟩ cBatch exUniq constCodec "ab").1
      = UploadOutcome.totalSizeExceeded := by
  refine ⟨?_, by decide, by decide, by decide⟩
  unfold batchViolation
  decide

/-- Claim C3, amended: every batch violating one of the three checks
(count, per-file type, aggregate size) is rejected as a whole, and after
the rejection no file of the batch remains anywhere (the storage areas are
exactly the pre-state): count and type violations are unstaged by the
intake layer itself, aggregate-size violations are unlinked by the route
handler — though the latter's files transiently reach disk before the
check runs. -/
theorem C3_amended (pre : AreaState) (files : List MFile) (uniq : Nat → String)
    (codec : StoredFile → Option Nat) (zipHex : String)
    (hv : batchViolation files) :
    ((∃ e, (uploadPost pre files uniq codec zipHex).1 = .uploadError e)
      ∨ (uploadPost pre files uniq codec zipHex).1 = .totalSizeExceeded)
    ∧ (uploadPost pre files uniq codec zipHex).2 = pre :=
  uploadPost_reject pre files uniq codec zipHex hv

/-- Claim C3, witness: a batch with a `.gif` member is rejected and the
areas end exactly as they started. -/
theorem C3_witness :
    (uploadPost preDemo badBatch exUniq constCodec "zz").2 = preDemo :=
  (C3_amended preDemo badBatch exUniq constCodec "zz"
    (by unfold batchViolation; decide)).2

/-- Claim C4: a batch whose aggregate size exceeds 100 MiB is rejected as
a whole, and the rejection leaves the incoming area exactly as it was —
every staged file of the batch is deleted. -/
theorem C4_batch_rejection (pre : AreaState) (files : List MFile)
    (uniq : Nat → String) (codec : StoredFile → Option Nat) (zipHex : String)
    (hsum : MAX_TOTAL_SIZE < (files.map (fun f => f.size)).sum) :
    ((∃ e, (uploadPost pre files uniq codec zipHex).1 = .uploadError e)
      ∨ (uploadPost pre files uniq codec zipHex).1 = .totalSizeExceeded)
    ∧ (uploadPost pre files uniq codec zipHex).2.incoming = pre.incoming
    ∧ (uploadPost pre files uniq codec zipHex).2.outgoing = pre.outgoing := by
  obtain ⟨h1, h2⟩ :=
    uploadPost_reject pre files uniq codec zipHex (Or.inr (Or.inr hsum))
  exact ⟨h1, by rw [h2], by rw [h2]⟩

/-- Claim C4, witness: the 2 × 60 MiB batch is rejected and both areas are
exactly the (nonempty) pre-state afterwards. -/
theorem C4_witness :
    (uploadPost preDemo cBatch exUniq constCodec "ab").2.incoming = preDemo.incoming
  ∧ (uploadPost preDemo cBatch exUniq constCodec "ab").2.outgoing = preDemo.outgoing :=
  (C4_batch_rejection preDemo cBatch exUniq constCodec "ab" (by decide)).2

/-! ## Claims C5 and C10: whole-batch failure on a codec error -/

theorem uploadPost_procfail (pre : AreaState) (files : List MFile)
    (uniq : Nat → String) (codec : StoredFile → Option Nat) (zipHex : String)
    (staged : List StoredFile)
    (hok : runIntake files uniq = Except.ok staged)
    (hsz : (staged.map (fun f => f.size)).sum ≤ MAX_TOTAL_SIZE)
    (hfail : ∃ f ∈ staged, optimiseFile codec OPTIMIZED_DIR f = none) :
    uploadPost pre files uniq codec zipHex
      = (.processingFailed,
         { incoming := pre.incoming,
           outgoing := pre.outgoing ++ writtenOutputs codec staged }) := by
  have hnotall :
      (staged.map (optimiseFile codec OPTIMIZED_DIR)).all (fun r => r.isSome) = false := by
    rcases hfail with ⟨f, hf, hn⟩
    refine Bool.eq_false_iff.mpr (fun hall => ?_)
    have := List.all_eq_true.mp hall (optimiseFile codec OPTIMIZED_DIR f)
      (List.mem_map_of_mem _ hf)
    rw [hn] at this
    simp at this
  simp [uploadPost, hok, Nat.not_lt.mpr hsz, hnotall]

/-- Claim C5: if any single file of an accepted batch fails its codec
step, the whole batch fails — the route answers the generic 500 failure
(no payload, no downloadable artifacts) and the incoming area holds none
of the batch's staged originals afterwards. -/
theorem C5_codec_failure_aborts (pre : AreaState) (files : List MFile)
    (uniq : Nat → String) (codec : StoredFile → Option Nat) (zipHex : String)
    (staged : List StoredFile)
    (hok : runIntake files uniq = Except.ok staged)
    (hsz : (staged.map (fun f => f.size)).sum ≤ MAX_TOTAL_SIZE)
    (hfail : ∃ f ∈ staged, optimiseFile codec OPTIMIZED_DIR f = none) :
    (uploadPost pre files uniq codec zipHex).1 = .processingFailed
  ∧ (uploadPost pre files uniq codec zipHex).2.incoming = pre.incoming := by
  rw [uploadPost_procfail pre files uniq codec zipHex staged hok hsz hfail]
  exact ⟨rfl, rfl⟩

/-- Claim C5, witness: a two-file batch in which the codec rejects
`a.png`; the route fails with the generic 500 and the incoming area is
back to its pre-state. -/
theorem C5_witness :
    (uploadPost preDemo smallBatch exUniq failCodec "ab").1 = .processingFailed
  ∧ (uploadPost preDemo smallBatch exUniq failCodec "ab").2.incoming
      = preDemo.incoming :=
  C5_codec_failure_aborts preDemo smallBatch exUniq failCodec "ab" smallStaged
    (by decide) (by decide) (by decide)

/-- Claim C10: the failure path of an accepted batch deletes only the
staged originals of the incoming area; the outgoing area keeps exactly its
previous contents plus every output a codec-successful sibling had already
written — each such sibling output is still present after the failure. -/
theorem C10_failure_frame (pre : AreaState) (files : List MFile)
    (uniq : Nat → String) (codec : StoredFile → Option Nat) (zipHex : String)
    (staged : List StoredFile)
    (hok : runIntake files uniq = Except.ok staged)
    (hsz : (staged.map (fun f => f.size)).sum ≤ MAX_TOTAL_SIZE)
    (hfail : ∃ f ∈ staged, optimiseFile codec OPTIMIZED_DIR f = none) :
    (uploadPost pre files uniq codec zipHex).1 = .processingFailed
  ∧ (uploadPost pre files uniq codec zipHex).2.incoming = pre.incoming
  ∧ (uploadPost pre files uniq codec zipHex).2.outgoing
      = pre.outgoing ++ writtenOutputs codec staged
  ∧ (∀ f ∈ staged, ∀ r, optimiseFile codec OPTIMIZED_DIR f = some r →
      nodeBasename r.optimizedPath ∈ (uploadPost pre files uniq codec zipHex).2.outgoing) := by
  rw [uploadPost_procfail pre files uniq codec zipHex staged hok hsz hfail]
  refine ⟨rfl, rfl, rfl, ?_⟩
  intro f hf r hr
  apply List.mem_append_right
  exact List.mem_filterMap.mpr ⟨f, hf, by rw [hr]; rfl⟩

/-- Claim C10, witness: with the codec rejecting `a.png` but accepting
`b.jpg`, the failure leaves the pre-existing outgoing file and the sibling
output `b-opt.jpg` on disk, and restores the incoming area. -/
theorem C10_witness :
    (uploadPost preDemo smallBatch exUniq failCodec "cd").2.outgoing
        = preDemo.outgoing ++ writtenOutputs failCodec smallStaged
  ∧ (uploadPost preDemo smallBatch exUniq failCodec "cd").2.incoming
        = preDemo.incoming :=
  ⟨(C10_failure_frame preDemo smallBatch exUniq failCodec "cd" smallStaged
      (by decide) (by decide) (by decide)).2.2.1,
   (C10_failure_frame preDemo smallBatch exUniq failCodec "cd" smallStaged
      (by decide) (by decide) (by decide)).2.1⟩

/-! ## Claim C7: the derived output name -/

/-- Claim C7, counterexample to the claim as stated: `Photo.PNG` has an
accepted raster extension in non-lower case and is processed, but because
`optimiseFile` lower-cases the extension before handing it to
`path.basename(name, ext)`, the suffix is not stripped: the output is
written as `Photo.PNG-opt.png`, not the claimed
`<basename-without-ext>-opt<ext>` (`Photo-opt.PNG`). -/
theorem C7_counterexample :
    allowedName "Photo.PNG" = true
  ∧ (optimiseFile constCodec OPTIMIZED_DIR ⟨"Photo.PNG", 10, "Photo-0.PNG"⟩).map
        (fun r => nodeBasename r.optimizedPath) = some "Photo.PNG-opt.png"
  ∧ specOptName "Photo.PNG" = "Photo-opt.PNG"
  ∧ optName "Photo.PNG" ≠ specOptName "Photo.PNG" := by
  decide

/-- Claim C7, amended: whenever the original name's extension is already
lower-case (the lower-casing in the code is then the identity), every
successful optimisation writes its output to the outgoing directory under
exactly the specified derived name
`<original-basename-without-ext>-opt<ext>`. -/
theorem C7_amended (codec : StoredFile → Option Nat) (outDir : String)
    (f : StoredFile)
    (hext : lowerStr (extname f.originalname) = extname f.originalname)
    (r : OptResult) (hr : optimiseFile codec outDir f = some r) :
    r.optimizedPath = outDir ++ "/" ++ specOptName f.originalname := by
  simp only [optimiseFile, hext] at hr
  split at hr
  · cases hc : codec f with
    | none =>
      rw [hc] at hr
      exact absurd hr (by simp)
    | some sz =>
      rw [hc] at hr
      have hrv := Option.some.inj hr
      rw [← hrv]
      simp only [optName, specOptName, hext]
  · exact absurd hr (by simp)

/-- Claim C7, witness: the lower-case name `photo.png` is optimised to
`photo-opt.png` inside the outgoing directory, matching the specified
derivation. -/
theorem C7_witness :
    (OptResult.mk "photo-0.png" "photo.png" (OPTIMIZED_DIR ++ "/photo-opt.png") 9 1).optimizedPath
      = OPTIMIZED_DIR ++ "/" ++ specOptName "photo.png" :=
  C7_amended constCodec OPTIMIZED_DIR ⟨"photo.png", 9, "photo-0.png"⟩ (by decide)
    ⟨"photo-0.png", "photo.png", OPTIMIZED_DIR ++ "/photo-opt.png", 9, 1⟩ (by decide)

/-! ## Claim C8: createZip exposes the container before finalization -/

/-- Claim C8: the code contradicts the claim.  `createZip` opens the
container at its final resolvable location (`fs.open(zipPath, 'w')`)
before reading a single input; on a failing run (here: the input is
unreadable) the call rejects, yet the partial container is still present
and resolvable at its final location in the optimized folder. -/
theorem C8_partial_container_left :
    (createZip noneReadable ["/srv/sora-lite/optimized/a-opt.png"] "0123456789abcdef").1
        = ZipOutcome.failed
  ∧ "bundle-0123456789abcdef.zip"
      ∈ (createZip noneReadable ["/srv/sora-lite/optimized/a-opt.png"] "0123456789abcdef").2 := by
  decide

/-! ## Claim C9: idempotence of the cleanup sweep -/

theorem find_name_of_nodup (st : List FsEntry) (e : FsEntry)
    (hnd : (st.map (fun x => x.name)).Nodup) (he : e ∈ st) :
    st.find? (fun x => x.name == e.name) = some e := by
  induction st with
  | nil => cases he
  | cons a t ih =>
    have hnd' : (∀ x ∈ t, ¬x.name = a.name) ∧ (t.map (fun x => x.name)).Nodup := by
      simpa using hnd
    rcases List.mem_cons.mp he with rfl | ht
    · rw [List.find?_cons_of_pos _ (by simp)]
    · rw [List.find?_cons_of_neg _ ?_, ih hnd'.2 ht]
      intro hceq
      have hna : a.name = e.name := by simpa using hceq
      exact hnd'.1 e ht hna.symm

theorem eraseP_name_of_nodup (st : List FsEntry) (nm : String)
    (hnd : (st.map (fun x => x.name)).Nodup) :
    st.eraseP (fun y => y.name == nm) = st.filter (fun y => !(y.name == nm)) := by
  induction st with
  | nil => rfl
  | cons a t ih =>
    have hnd' : (∀ x ∈ t, ¬x.name = a.name) ∧ (t.map (fun x => x.name)).Nodup := by
      simpa using hnd
    by_cases ha : a.name = nm
    · rw [List.eraseP_cons_of_pos (by simp [ha]), List.filter_cons_of_neg (by simp [ha])]
      symm
      apply List.filter_eq_self.mpr
      intro y hy
      have hne : y.name ≠ nm := fun hc => hnd'.1 y hy (hc.trans ha.symm)
      simp [hne]
    · rw [List.eraseP_cons_of_neg (by simp [ha]), List.filter_cons_of_pos (by simp [ha])]
      rw [ih hnd'.2]

theorem sweepGo_char (now : Int) :
    ∀ (l st : List FsEntry), (st.map (fun x => x.name)).Nodup → l.Sublist st →
    sweepGo now l st
      = (st.filter (fun x =>
            !(decide (x ∈ l) && x.isFile && decide (CLEANUP_AFTER_MS < now - x.mtimeMs))),
         (l.filter (fun x =>
            x.isFile && decide (CLEANUP_AFTER_MS < now - x.mtimeMs))).map (fun x => x.name),
         false) := by
  intro l
  induction l with
  | nil =>
    intro st hnd hsub
    have h1 : st.filter (fun x =>
        !(decide (x ∈ ([] : List FsEntry)) && x.isFile
          && decide (CLEANUP_AFTER_MS < now - x.mtimeMs))) = st :=
      List.filter_eq_self.mpr (fun a _ => by simp)
    simp [sweepGo, h1]
  | cons e l ih =>
    intro st hnd hsub
    have he : e ∈ st := hsub.subset (List.mem_cons_self e l)
    have hndl : ((e :: l).map (fun x => x.name)).Nodup :=
      List.Nodup.sublist (List.Sublist.map (fun x => x.name) hsub) hnd
    have hpair : (∀ x ∈ l, ¬x.name = e.name) ∧ (l.map (fun x => x.name)).Nodup := by
      simpa using hndl
    have hnel : ∀ x ∈ l, x.name ≠ e.name := hpair.1
    have hel : e ∉ l := fun h => hpair.1 e h rfl
    have hsubl : l.Sublist st := (List.sublist_cons_self e l).trans hsub
    have hinj : ∀ x ∈ st, x ≠ e → x.name ≠ e.name := by
      intro x hx hne hceq
      exact hne (List.inj_on_of_nodup_map hnd hx he hceq)
    by_cases hf : e.isFile = true
    · have hfind := find_name_of_nodup st e hnd he
      simp only [sweepGo, hf, hfind]
      by_cases hstale : CLEANUP_AFTER_MS < now - e.mtimeMs
      · rw [if_neg (by simp), if_pos hstale]
        have herase : st.eraseP (fun y => y.name == e.name)
            = st.filter (fun y => !(y.name == e.name)) :=
          eraseP_name_of_nodup st e.name hnd
        have hnd2 : ((st.filter (fun y => !(y.name == e.name))).map
            (fun x => x.name)).Nodup :=
          List.Nodup.sublist (List.Sublist.map _ (List.filter_sublist st)) hnd
        have hsub2 : l.Sublist (st.filter (fun y => !(y.name == e.name))) := by
          have hl : l.filter (fun y => !(y.name == e.name)) = l :=
            List.filter_eq_self.mpr (fun y hy => by simp [hnel y hy])
          rw [← hl]
          exact List.Sublist.filter _ hsubl
        rw [herase, ih _ hnd2 hsub2]
        refine congrArg₂ _ ?_ (congrArg₂ _ ?_ rfl)
        · rw [List.filter_filter]
          apply List.filter_congr
          intro x hx
          by_cases hxe : x = e
          · subst hxe
            simp [hf, hstale, hel]
          · have hname : x.name ≠ e.name := hinj x hx hxe
            have hmemiff : (x ∈ e :: l) = (x ∈ l) := by
              simp [List.mem_cons, hxe]
            simp [hname, hmemiff]
        · rw [List.filter_cons_of_pos (by simp [hf, hstale]), List.map_cons]
      · rw [if_neg (by simp), if_neg hstale, ih st hnd hsubl]
        refine congrArg₂ _ ?_ (congrArg₂ _ ?_ rfl)
        · apply List.filter_congr
          intro x hx
          by_cases hxe : x = e
          · subst hxe
            simp [hstale, hel]
          · have hmemiff : (x ∈ e :: l) = (x ∈ l) := by
              simp [List.mem_cons, hxe]
            simp [hmemiff]
        · rw [List.filter_cons_of_neg (by simp [hstale])]
    · have hf' : e.isFile = false := by
        cases hfv : e.isFile
        · rfl
        · exact absurd hfv hf
      simp only [sweepGo, hf']
      rw [if_pos trivial, ih st hnd hsubl]
      refine congrArg₂ _ ?_ (congrArg₂ _ ?_ rfl)
      · apply List.filter_congr
        intro x hx
        by_cases hxe : x = e
        · subst hxe
          simp [hf']
        · have hmemiff : (x ∈ e :: l) = (x ∈ l) := by
            simp [List.mem_cons, hxe]
          simp [hmemiff]
      · rw [List.filter_cons_of_neg (by simp [hf'])]

theorem cleanFolder_char (now : Int) (folder : List FsEntry)
    (hnd : (folder.map (fun x => x.name)).Nodup) :
    cleanFolder now folder
      = (folder.filter (fun x =>
            !(x.isFile && decide (CLEANUP_AFTER_MS < now - x.mtimeMs))),
         (folder.filter (fun x =>
            x.isFile && decide (CLEANUP_AFTER_MS < now - x.mtimeMs))).map (fun x => x.name),
         false) := by
  rw [cleanFolder, sweepGo_char now folder folder hnd (List.Sublist.refl folder)]
  refine congrArg₂ _ ?_ rfl
  apply List.filter_congr
  intro x hx
  simp [hx]

theorem cleanFolder_idem (now : Int) (folder : List FsEntry)
    (hnd : (folder.map (fun x => x.name)).Nodup) :
    cleanFolder now (cleanFolder now folder).1
      = ((cleanFolder now folder).1, [], false) := by
  rw [cleanFolder_char now folder hnd]
  have hnd1 : ((folder.filter (fun x =>
      !(x.isFile && decide (CLEANUP_AFTER_MS < now - x.mtimeMs)))).map
        (fun x => x.name)).Nodup :=
    List.Nodup.sublist (List.Sublist.map _ (List.filter_sublist folder)) hnd
  rw [cleanFolder_char now _ hnd1]
  refine congrArg₂ _ ?_ (congrArg₂ _ ?_ rfl)
  · apply List.filter_eq_self.mpr
    intro a ha
    exact (List.mem_filter.mp ha).2
  · have hnil : (folder.filter (fun x =>
        !(x.isFile && decide (CLEANUP_AFTER_MS < now - x.mtimeMs)))).filter
          (fun x => x.isFile && decide (CLEANUP_AFTER_MS < now - x.mtimeMs)) = [] := by
      apply List.filter_eq_nil_iff.mpr
      intro a ha hstale
      have hkeep := (List.mem_filter.mp ha).2
      rw [hstale] at hkeep
      simp at hkeep
    rw [hnil, List.map_nil]

/-- Claim C9: the Janitor sweep is idempotent — with no file added or
modified in between (in particular, at the same clock reading), running
the sweep a second time over both storage areas deletes nothing, raises
no cleanup error, and leaves both areas unchanged. -/
theorem C9_idempotent (now : Int) (uploads optimized : List FsEntry)
    (h1 : (uploads.map (fun x => x.name)).Nodup)
    (h2 : (optimized.map (fun x => x.name)).Nodup) :
    cronSweep now (cronSweep now uploads optimized).1.1
        (cronSweep now uploads optimized).2.1
      = (((cronSweep now uploads optimized).1.1, [], false),
         ((cronSweep now uploads optimized).2.1, [], false)) := by
  unfold cronSweep
  rw [cleanFolder_idem now uploads h1, cleanFolder_idem now optimized h2]

/-- Claim C9, witness: a sweep that deletes one stale file and skips a
subdirectory; the immediate second sweep deletes nothing and reports no
error in either area. -/
theorem C9_witness :
    cronSweep 301000 (cronSweep 301000 upDemo optDemo).1.1
        (cronSweep 301000 upDemo optDemo).2.1
      = (((cronSweep 301000 upDemo optDemo).1.1, [], false),
         ((cronSweep 301000 upDemo optDemo).2.1, [], false)) :=
  C9_idempotent 301000 upDemo optDemo (by decide) (by decide)
